import Mathlib

/-
Verification of `ChIP-seq/make_macs2_xls.py`: a shallow embedding of the
MACS peak-file model (`MacsXLS`), the tabular record store (`TabFile`,
imported by the script from `../share` and therefore modelled from the
specification), and the workbook emitter (`xls_for_macs2`, whose
spreadsheet collaborator `simple_xls` is likewise modelled from the
specification).  Python strings are embedded as Lean `String`; the string
primitives the script uses (`strip`, `startswith`, `split`) are given
executable definitions over the character list of the string.
-/

deriving instance DecidableEq for Except

namespace Macs

/-- Python strip(): remove leading and trailing whitespace characters. -/
def trimChars (cs : List Char) : List Char :=
  ((cs.dropWhile Char.isWhitespace).reverse.dropWhile Char.isWhitespace).reverse

/-- Python `line.strip()`. -/
def pyStrip (s : String) : String := String.mk (trimChars s.data)

/-- Python `s.startswith(p)`. -/
def pyStarts (s p : String) : Bool := p.data.isPrefixOf s.data

/-- Python `s.split(sep)` for a one-character separator: split at every
occurrence of the separator, keeping empty pieces. -/
def splitCharsOn (sep : Char) : List Char → List (List Char)
  | [] => [[]]
  | c :: cs =>
    match splitCharsOn sep cs, decide (c = sep) with
    | r, true => [] :: r
    | [], false => [[c]]
    | w :: ws, false => (c :: w) :: ws

/-- Python `s.split(sep)` (one-character separator), on strings. -/
def pySplitOn (s : String) (sep : Char) : List String :=
  (splitCharsOn sep s.data).map String.mk

/-- Split at every whitespace character, keeping empty pieces. -/
def splitCharsWhite : List Char → List (List Char)
  | [] => [[]]
  | c :: cs =>
    match splitCharsWhite cs, c.isWhitespace with
    | r, true => [] :: r
    | [], false => [[c]]
    | w :: ws, false => (c :: w) :: ws

/-- Python `s.split()` (no argument): whitespace-delimited words, empty
pieces discarded. -/
def pyWords (s : String) : List String :=
  ((splitCharsWhite s.data).filter (fun w => !w.isEmpty)).map String.mk

/-- A scalar cell value of the tabular store: integer, float (embedded as a
rational), or string. -/
inductive Value where
  | i : Int → Value
  | f : Rat → Value
  | s : String → Value
deriving DecidableEq

/-- Lexicographic `<=` on character lists (Python string comparison). -/
def charsLe : List Char → List Char → Bool
  | [], _ => true
  | _ :: _, [] => false
  | a :: as, b :: bs => if a < b then true else if b < a then false else charsLe as bs

/-- Python 2 `<=` on mixed scalars as used by the sort: numbers compare
numerically with each other; every number compares below every string
(type name ordering); strings compare lexicographically. -/
def Value.le : Value → Value → Bool
  | .i a, .i b => decide (a ≤ b)
  | .i a, .f b => decide ((a : Rat) ≤ b)
  | .i _, .s _ => true
  | .f a, .i b => decide (a ≤ (b : Rat))
  | .f a, .f b => decide (a ≤ b)
  | .f _, .s _ => true
  | .s _, .i _ => false
  | .s _, .f _ => false
  | .s a, .s b => charsLe a.data b.data

/-- Digits to the natural number they denote. -/
def digitsToNat (cs : List Char) : Nat :=
  cs.foldl (fun n c => 10 * n + (c.toNat - 48)) 0

/-- Modelled from the spec: `TabFile` stores each field as "a scalar
(string, integer, or float) inferred from the tab-delimited text".  An
integer field is an optional sign followed by one or more digits. -/
def parseIntVal (s : String) : Option Int :=
  match s.data with
  | [] => none
  | '-' :: rest =>
    if rest ≠ [] ∧ rest.all Char.isDigit then some (-(digitsToNat rest : Int)) else none
  | '+' :: rest =>
    if rest ≠ [] ∧ rest.all Char.isDigit then some (digitsToNat rest : Int) else none
  | cs =>
    if cs.all Char.isDigit then some (digitsToNat cs : Int) else none

/-- Decimal mantissa `digits[.digits]` as a rational, when well formed. -/
def parseMantissa (cs : List Char) : Option Rat :=
  match cs.dropWhile Char.isDigit, cs.takeWhile Char.isDigit with
  | [], [] => none
  | [], intPart => some (digitsToNat intPart : Rat)
  | '.' :: frac, intPart =>
    if frac.all Char.isDigit ∧ (intPart ≠ [] ∨ frac ≠ []) then
      some ((digitsToNat intPart : Rat) + (digitsToNat frac : Rat) / ((10 : Rat) ^ frac.length))
    else none
  | _, _ => none

/-- Modelled from the spec: a float field (optional sign, decimal mantissa,
optional exponent part), embedded as an exact rational. -/
def parseFloatVal (s : String) : Option Rat :=
  match s.data with
  | '-' :: rest => (parseFloatCore rest).map (fun q => -q)
  | '+' :: rest => parseFloatCore rest
  | cs => parseFloatCore cs
where
  parseFloatCore (cs : List Char) : Option Rat :=
    match cs.dropWhile (fun c => !(c = 'e' ∨ c = 'E')), cs.takeWhile (fun c => !(c = 'e' ∨ c = 'E')) with
    | [], mant => parseMantissa mant
    | _ :: expPart, mant =>
      match parseIntVal (String.mk expPart) with
      | some e => (parseMantissa mant).map (fun m => m * (10 : Rat) ^ e)
      | none => none

/-- Modelled from the spec: field-to-scalar inference (integer first, then
float, else the raw string). -/
def convertValue (s : String) : Value :=
  match parseIntVal s with
  | some n => .i n
  | none =>
    match parseFloatVal s with
    | some q => .f q
    | none => .s s

/-- Modelled from the spec: the tabular record store, an "ordered list of
named columns" whose rows hold scalar values, rows addressable by numeric
index and cells by column name. -/
structure TabFile where
  column_names : List String
  rows : List (List Value)
deriving DecidableEq

/-- Modelled from the spec: `TabFile.append(tabdata=...)` splits the given
tab-data on tabs and converts each field to a scalar. -/
def TabFile.appendTabData (t : TabFile) (tabdata : String) : TabFile :=
  { t with rows := t.rows ++ [(pySplitOn tabdata '\t').map convertValue] }

/-- Modelled from the spec: `line[column]` row access keyed by column name,
the value at the index of the column in the row. -/
def TabFile.cellKey (t : TabFile) (column : String) (r : List Value) : Value :=
  (r[t.column_names.indexOf column]?).getD (.s "")

/-- The state built up while the `MacsXLS` constructor iterates over the
input lines. -/
structure ParseState where
  name : Option String
  macs_version : Option String
  command_line : Option String
  header : List String
  data : Option TabFile
deriving DecidableEq

def initState (name : Option String) : ParseState :=
  { name := name, macs_version := none, command_line := none, header := [], data := none }

/-- The header line carrying the MACS version. -/
def macsVersionTag : String := "# This file is generated by MACS version "

/-- The header-line part of the line loop of the constructor: detect and
extract the version, name and command line. -/
def processHeaderLine (st : ParseState) (line : String) : ParseState :=
  if pyStarts line macsVersionTag then
    -- `line.split()[8]`: the ninth whitespace-delimited word.  A stripped
    -- line extending the eight-word tag always has a ninth word, so the
    -- default is never taken.
    { st with macs_version := some (((pyWords line)[8]?).getD "") }
  else if st.name == none && pyStarts line "# name = " then
    { st with name := some (line.drop 9) }
  else if pyStarts line "# Command line: " then
    { st with command_line := some (line.drop 16) }
  else st

/-- One iteration of the line loop of the constructor (`MacsXLS.__init__`). -/
def processLine (st : ParseState) (rawLine : String) : ParseState :=
  let line := pyStrip rawLine
  if pyStarts line "#" || line == "" then
    processHeaderLine { st with header := st.header ++ [line] } line
  else
    match st.data with
    | none =>
      { st with data := some { column_names := "order" :: pySplitOn line '\t', rows := [] } }
    | some t => { st with data := some (t.appendTabData ("\t" ++ line)) }

/-- How `MacsXLS` construction can fail: no version line (the explicit
`Exception` in `__init__`), or `update_order` reaching for a data table
that was never created (`len(None)` fails when the input had no
non-comment line). -/
inductive LoadError where
  | formatError
  | noDataTable
deriving DecidableEq

/-- A successfully constructed `MacsXLS` object. -/
structure MacsXLS where
  name : Option String
  macs_version : String
  command_line : Option String
  header : List String
  data : TabFile
deriving DecidableEq

/-- The update_order method: set the order cell of row i to i + 1. -/
def TabFile.update_order (t : TabFile) : TabFile :=
  { t with rows := t.rows.mapIdx (fun i r => r.set (t.column_names.indexOf "order") (.i ((i : Int) + 1))) }

/-- The `MacsXLS` constructor on the list of input lines. -/
def loadMacsXLS (lines : List String) : Except LoadError MacsXLS :=
  match lines.foldl processLine (initState none) with
  | st =>
    match st.macs_version with
    | none => .error .formatError
    | some v =>
      match st.data with
      | none => .error .noDataTable
      | some t =>
        .ok { name := st.name, macs_version := v, command_line := st.command_line,
              header := st.header, data := t.update_order }

/-- The `columns` property: the column names of the data table. -/
def MacsXLS.columns (m : MacsXLS) : List String := m.data.column_names

/-- The `columns_as_xls_header` property: the column names with a hash
prepended to the first. -/
def MacsXLS.columns_as_xls_header (m : MacsXLS) : List String :=
  ("#" ++ m.columns.headI) :: m.columns.tail

/-- The `with_broad_option` property. -/
def MacsXLS.with_broad_option (m : MacsXLS) : Bool :=
  if pyStarts m.macs_version "1." then false
  else
    match m.command_line with
    | some cl => (pyWords cl).contains "--broad"
    | none => !(m.columns.contains "abs_summit")

/-- The comparison the in-place sort uses on rows: key extraction by the
sort column, descending when `reverse` is set. -/
def rowLe (k : List Value → Value) (reverse : Bool) (a b : List Value) : Bool :=
  if reverse then Value.le (k b) (k a) else Value.le (k a) (k b)

/-- Modelled from the spec: the stable in-place sort of the record store by a
key (`self.__data.sort(lambda line: line[column], reverse=reverse)`),
embedded as a stable insertion sort under the same comparison. -/
def TabFile.sortOn (t : TabFile) (column : String) (reverse : Bool) : TabFile :=
  { t with rows := t.rows.insertionSort (fun a b => rowLe (t.cellKey column) reverse a b = true) }

/-- The sort_on method: sort the data, then recompute the order column. -/
def MacsXLS.sort_on (m : MacsXLS) (column : String) (reverse : Bool) : MacsXLS :=
  { m with data := (m.data.sortOn column reverse).update_order }

/-- A spreadsheet cell: empty, a literal scalar, or a formula (stored with
its row number already substituted, as `render_cell` would show it). -/
inductive Cell where
  | emptyCell
  | v : Value → Cell
  | f : String → Cell
deriving DecidableEq

/-- A worksheet row as a sparse grid line: column index (0 for column A)
to cell. -/
def Row := Nat → Cell

/-- A row holding the given cells in columns A, B, ... -/
def mkRow (cells : List Cell) : Row := fun k => (cells[k]?).getD .emptyCell

/-- The cell for an optional scalar. -/
def cellOfValue : Option Value → Cell
  | some v => Cell.v v
  | none => Cell.emptyCell

/-- A row holding the given scalar values in columns A, B, ... -/
def mkValueRow (vs : List Value) : Row := fun k => cellOfValue vs[k]?

/-- Modelled from the spec: a worksheet, "a sparse grid of cells addressed
by (column-letter, row-number)"; entry 0 of `rows` is spreadsheet row 1. -/
structure Sheet where
  rows : List Row

/-- The 0-based column index of a column letter (A..Z). -/
def colIndex (c : Char) : Nat := c.toNat - 'A'.toNat

/-- The cell of a sheet at 0-based column index `k` and 1-based row
number `n`. -/
def Sheet.cell (s : Sheet) (k : Nat) (n : Nat) : Cell :=
  ((s.rows[n - 1]?).getD (mkRow [])) k

/-- The effect of a column insertion at index `j` on one row: columns at
and after `j` shift one place right, the new column holds `c`. -/
def insRowMap (j : Nat) (c : Cell) (r : Row) : Row :=
  fun k => if k < j then r k else if k = j then c else r (k - 1)

/-- The effect of writing cell `j` of one row. -/
def wrRowMap (j : Nat) (c : Cell) (r : Row) : Row :=
  fun k => if k = j then c else r k

/-- Modelled from the spec: the row-number placeholder of a formula template
(`?`) is substituted per row. -/
def fillChars (n : Nat) : List Char → List Char
  | [] => []
  | c :: cs => if c = '?' then (toString n).data ++ fillChars n cs else c :: fillChars n cs

/-- Substitute the row number for every `?` in a formula template. -/
def fillTemplate (fill : String) (n : Nat) : String := String.mk (fillChars n fill.data)

/-- Modelled from the spec: `insert_column(letter, text=...)` shifts the
subsequent columns right and heads the new column with the given text. -/
def Sheet.insert_column (s : Sheet) (j : Nat) (text : String) : Sheet :=
  { rows := s.rows.mapIdx (fun i r =>
      insRowMap j (if i = 0 then Cell.v (.s text) else Cell.emptyCell) r) }

/-- Modelled from the spec: `write_column(letter, fill=..., from_row=...)`
writes the rendered formula template into every row from `fromRow` on. -/
def Sheet.write_column_fill (s : Sheet) (j : Nat) (fill : String) (fromRow : Nat) : Sheet :=
  { rows := s.rows.mapIdx (fun i r =>
      if fromRow ≤ i + 1 then wrRowMap j (Cell.f (fillTemplate fill (i + 1))) r else r) }

/-- The data sheet before the formula columns are inserted: the header row
(`columns_as_xls_header`) then one row per data record. -/
def dataSheetBase (m : MacsXLS) : Sheet :=
  { rows := mkRow (m.columns_as_xls_header.map (fun c => Cell.v (.s c))) ::
      m.data.rows.map mkValueRow }

/-- The data sheet after the six derived columns are inserted and filled
(columns E..J, formulas referencing columns B and L). -/
def dataSheetFinal (m : MacsXLS) : Sheet :=
  ((((((((((((dataSheetBase m).insert_column (colIndex 'E') "chr"
    ).write_column_fill (colIndex 'E') "=B?" 2
    ).insert_column (colIndex 'F') "abs_summit-100"
    ).write_column_fill (colIndex 'F') "=L?-100" 2
    ).insert_column (colIndex 'G') "abs_summit+100"
    ).write_column_fill (colIndex 'G') "=L?+100" 2
    ).insert_column (colIndex 'H') "chr"
    ).write_column_fill (colIndex 'H') "=B?" 2
    ).insert_column (colIndex 'I') "summit-1"
    ).write_column_fill (colIndex 'I') "=L?-1" 2
    ).insert_column (colIndex 'J') "summit"
    ).write_column_fill (colIndex 'J') "=L?" 2

/-- The static legends text of the legends sheet. -/
def legends_text : String := "order\tSorting order FE\nchr\tChromosome location of binding region\nstart\tStart coordinate of binding region\nend\tEnd coordinate of binding region\nsummit-100\tSummit - 100bp\nsummit+100\tSummit + 100bp\nsummit-1\tSummit of binding region - 1\nsummit\tSummit of binding region\nlength\tLength of binding region\nabs_summit\tCoordinate of region summit\npileup\tNumber of non-degenerate and position corrected reads at summit\n-LOG10(pvalue)\tTransformed Pvalue -log10(Pvalue) for the binding region (e.g. if Pvalue=1e-10, then this value should be 10)\nfold_enrichment\tFold enrichment for this region against random Poisson distribution with local lambda\n-LOG10(qvalue)\tTransformed Qvalue -log10(Pvalue) for the binding region (e.g. if Qvalue=0.05, then this value should be 1.3)\n"

/-- The notes sheet: a bold title, the verbatim header lines, and two
static lines. -/
def notesSheet (m : MacsXLS) : Sheet :=
  { rows := mkRow [Cell.v (.s "MACS RUN NOTES:")] ::
      ((m.header.map (fun l => mkRow [Cell.v (.s l)])) ++
        [mkRow [Cell.v (.s "ADDITIONAL NOTES:")],
         mkRow [Cell.v (.s "By default regions are sorted by fold enrichment (in descending order)")]]) }

/-- The legends sheet: the legends text written down column A, one line
per row. -/
def legendsSheet : Sheet :=
  { rows := (pySplitOn legends_text '\n').map (fun l => mkRow [Cell.v (.s l)]) }

/-- How `xls_for_macs2` can fail: MACS 1.* input ("Only handles output from
MACS 2.0*") or `--broad` input ("Handling --broad output not
implemented"). -/
inductive EmitError where
  | unsupportedVersion
  | unsupportedMode
deriving DecidableEq

/-- The workbook: named sheets in insertion order. -/
structure XLSWorkBook where
  sheets : List (String × Sheet)

/-- The function xls_for_macs2: validate, sort by fold enrichment (descending), and
build the three-sheet workbook. -/
def xls_for_macs2 (m : MacsXLS) : Except EmitError XLSWorkBook :=
  if pyStarts m.macs_version "1." then .error .unsupportedVersion
  else if m.with_broad_option then .error .unsupportedMode
  else
    match m.sort_on "fold_enrichment" true with
    | mx =>
      .ok { sheets := [("data", dataSheetFinal mx), ("notes", notesSheet mx), ("legends", legendsSheet)] }

/-- A small supported (MACS2, non-broad) input fixture. -/
def exLines : List String :=
  ["# This file is generated by MACS version 2.0.10",
   "# Command line: callpeak --gsize=mm",
   "chr\tstart\tend\tlength\tabs_summit\tfold_enrichment",
   "chr1\t10\t20\t11\t15\t7",
   "chr1\t30\t45\t16\t40\t9",
   "chr1\t50\t60\t11\t55\t3"]

/-- The `MacsXLS` object the fixture loads to. -/
def exM : MacsXLS :=
  { name := none, macs_version := "2.0.10", command_line := some "callpeak --gsize=mm",
    header := ["# This file is generated by MACS version 2.0.10",
               "# Command line: callpeak --gsize=mm"],
    data := { column_names := ["order", "chr", "start", "end", "length", "abs_summit", "fold_enrichment"],
              rows := [[.i 1, .s "chr1", .i 10, .i 20, .i 11, .i 15, .i 7],
                       [.i 2, .s "chr1", .i 30, .i 45, .i 16, .i 40, .i 9],
                       [.i 3, .s "chr1", .i 50, .i 60, .i 11, .i 55, .i 3]] } }

/-- The workbook emitted for the fixture. -/
def exWB : XLSWorkBook :=
  match xls_for_macs2 exM with
  | .ok wb => wb
  | .error _ => { sheets := [] }

/-- The data sheet of the workbook of the fixture. -/
def exDataSheet : Sheet :=
  match exWB.sheets with
  | (_, sh) :: _ => sh
  | [] => { rows := [] }

/-- A MACS 1.* input fixture whose command line carries `--broad`. -/
def v1Lines : List String :=
  ["# This file is generated by MACS version 1.4.0beta",
   "# Command line: callpeak --broad",
   "chr\tstart\tend\tfold_enrichment",
   "chr1\t1\t2\t5"]

/-- The `MacsXLS` object the MACS 1.* fixture loads to. -/
def v1M : MacsXLS :=
  { name := none, macs_version := "1.4.0beta", command_line := some "callpeak --broad",
    header := ["# This file is generated by MACS version 1.4.0beta",
               "# Command line: callpeak --broad"],
    data := { column_names := ["order", "chr", "start", "end", "fold_enrichment"],
              rows := [[.i 1, .s "chr1", .i 1, .i 2, .i 5]] } }

theorem charsLe_total : ∀ a b : List Char, (charsLe a b || charsLe b a) = true := by
  intro a
  induction a with
  | nil => intro b; cases b <;> simp [charsLe]
  | cons x xs ih =>
    intro b
    cases b with
    | nil => simp [charsLe]
    | cons y ys =>
      simp only [charsLe]
      rcases lt_trichotomy x y with h | h | h
      · simp [h, lt_asymm h]
      · subst h
        simp only [lt_irrefl, ite_false]
        exact ih ys
      · simp [h, lt_asymm h]

theorem charsLe_trans : ∀ a b c : List Char,
    charsLe a b = true → charsLe b c = true → charsLe a c = true := by
  intro a
  induction a with
  | nil => intro b c _ _; rfl
  | cons x xs ih =>
    intro b c hab hbc
    cases b with
    | nil => simp [charsLe] at hab
    | cons y ys =>
      cases c with
      | nil => simp [charsLe] at hbc
      | cons z zs =>
        simp only [charsLe] at hab hbc ⊢
        rcases lt_trichotomy x y with h1 | h1 | h1
        · rcases lt_trichotomy y z with h2 | h2 | h2
          · simp [lt_trans h1 h2, lt_asymm (lt_trans h1 h2)]
          · subst h2; simp [h1, lt_asymm h1]
          · rcases lt_trichotomy x z with h3 | h3 | h3
            · simp [h3, lt_asymm h3]
            · subst h3; simp [h2, lt_asymm h2] at hbc
            · simp [h2, lt_asymm h2] at hbc
        · subst h1
          rcases lt_trichotomy x z with h2 | h2 | h2
          · simp [h2, lt_asymm h2]
          · subst h2
            simp only [lt_irrefl, ite_false] at hab hbc ⊢
            exact ih _ _ hab hbc
          · simp [h2, lt_asymm h2] at hbc
        · simp [h1, lt_asymm h1] at hab

theorem value_le_total : ∀ a b : Value, (Value.le a b || Value.le b a) = true := by
  intro a b
  cases a <;> cases b <;>
    first
      | rfl
      | exact charsLe_total _ _
      | (simp only [Value.le, Bool.or_eq_true, decide_eq_true_eq]
         exact le_total _ _)

theorem value_le_trans : ∀ a b c : Value,
    Value.le a b = true → Value.le b c = true → Value.le a c = true := by
  intro a b c hab hbc
  cases a <;> cases b <;> cases c <;>
    simp only [Value.le, decide_eq_true_eq] at hab hbc ⊢ <;>
    first
      | trivial
      | exact charsLe_trans _ _ _ hab hbc
      | exact le_trans hab hbc
      | exact le_trans (Int.cast_le.mpr hab) hbc
      | exact le_trans hab (Int.cast_le.mpr hbc)
      | exact Int.cast_le.mp (le_trans hab hbc)

theorem rowLe_total (k : List Value → Value) (rev : Bool) (a b : List Value) :
    (rowLe k rev a b || rowLe k rev b a) = true := by
  cases rev
  · exact value_le_total (k a) (k b)
  · show (Value.le (k b) (k a) || Value.le (k a) (k b)) = true
    rw [Bool.or_comm]
    exact value_le_total (k a) (k b)

theorem rowLe_trans (k : List Value → Value) (rev : Bool) (a b c : List Value)
    (hab : rowLe k rev a b = true) (hbc : rowLe k rev b c = true) :
    rowLe k rev a c = true := by
  cases rev
  · exact value_le_trans (k a) (k b) (k c) hab hbc
  · exact value_le_trans (k c) (k b) (k a) hbc hab

/-- The rows of a sorted table are pairwise ordered under the applied
comparison. -/
theorem sortOn_rows_pairwise (t : TabFile) (c : String) (rev : Bool) :
    (t.sortOn c rev).rows.Pairwise (fun a b => rowLe (t.cellKey c) rev a b = true) := by
  haveI ht : IsTotal (List Value) (fun a b => rowLe (t.cellKey c) rev a b = true) :=
    ⟨fun a b => Bool.or_eq_true_iff.mp (rowLe_total _ _ a b)⟩
  haveI htr : IsTrans (List Value) (fun a b => rowLe (t.cellKey c) rev a b = true) :=
    ⟨fun a b c' => rowLe_trans _ _ a b c'⟩
  exact List.sorted_insertionSort _ _

/-- Sorting permutes the rows. -/
theorem sortOn_rows_perm (t : TabFile) (c : String) (rev : Bool) :
    (t.sortOn c rev).rows.Perm t.rows :=
  List.perm_insertionSort _ _

/-- A line the constructor treats as header: comment or blank once
stripped. -/
def isHeaderLine (l : String) : Bool :=
  pyStarts (pyStrip l) "#" || pyStrip l == ""

/-- A MACS-version header line. -/
def isVersionLine (l : String) : Bool :=
  pyStarts (pyStrip l) macsVersionTag

/-- The version extracted from a version line (its ninth word). -/
def extractVersion (l : String) : String :=
  ((pyWords (pyStrip l))[8]?).getD ""

theorem splitCharsOn_ne_nil (sep : Char) : ∀ cs, splitCharsOn sep cs ≠ [] := by
  intro cs
  induction cs with
  | nil => simp [splitCharsOn]
  | cons c cs ih =>
    rw [splitCharsOn]
    cases h : splitCharsOn sep cs with
    | nil => exact absurd h ih
    | cons w ws => cases hc : decide (c = sep) <;> simp [h, hc]

theorem pySplitOn_ne_nil (s : String) (sep : Char) : pySplitOn s sep ≠ [] := by
  simp [pySplitOn]
  exact splitCharsOn_ne_nil sep s.data

/-- A version-tagged line is a comment line: the tag begins with `#`. -/
theorem pyStarts_hash_of_tag (line : String) (h : pyStarts line macsVersionTag = true) :
    pyStarts line "#" = true := by
  unfold pyStarts at *
  rw [ List.isPrefixOf_iff_prefix] at *
  exact List.IsPrefix.trans (by decide) h

/-- The data table after one constructor iteration. -/
theorem processLine_data (st : ParseState) (l : String) :
    (processLine st l).data =
      if isHeaderLine l then st.data
      else
        match st.data with
        | none => some { column_names := "order" :: pySplitOn (pyStrip l) '\t', rows := [] }
        | some t => some (t.appendTabData ("\t" ++ pyStrip l)) := by
  rw [processLine, isHeaderLine]
  split
  · rw [processHeaderLine]
    (repeat' split) <;> rfl
  · split <;> rfl

/-- The version field after one constructor iteration. -/
theorem processLine_version (st : ParseState) (l : String) :
    (processLine st l).macs_version =
      if isVersionLine l then some (extractVersion l) else st.macs_version := by
  rw [processLine]
  split
  · rw [processHeaderLine]
    split
    · next htag => rw [isVersionLine, extractVersion, if_pos htag]
    · next htag =>
        rw [isVersionLine, if_neg htag]
        (repeat' split) <;> rfl
  · next hcom =>
      rw [isVersionLine, if_neg (fun hv => absurd (pyStarts_hash_of_tag _ hv) (by simp_all))]
      split <;> rfl

/-- Invariant of the data table under construction: the `order` column is
first, and no row is empty. -/
def GoodData : Option TabFile → Prop
  | none => True
  | some t => t.column_names.head? = some "order" ∧ ∀ r ∈ t.rows, r ≠ []

/-- A column list headed by `order` finds `order` at index 0. -/
theorem indexOf_order_eq_zero {cols : List String} (h : cols.head? = some "order") :
    cols.indexOf "order" = 0 := by
  cases cols with
  | nil => simp at h
  | cons x rest =>
    have hx : x = "order" := by simpa using h
    subst hx
    exact List.indexOf_cons_self _ _

/-- In a column list headed by `order`, any other name has nonzero
index (even when absent, where the index is the length). -/
theorem indexOf_ne_zero_of_head {cols : List String} (h : cols.head? = some "order")
    {c : String} (hco : c ≠ "order") : cols.indexOf c ≠ 0 := by
  cases cols with
  | nil => simp at h
  | cons x rest =>
    have hx : x = "order" := by simpa using h
    subst hx
    rw [List.indexOf_cons_ne rest (fun hh => hco hh.symm)]
    simp

theorem processLine_good (st : ParseState) (l : String) (h : GoodData st.data) :
    GoodData (processLine st l).data := by
  rw [processLine_data]
  split
  · exact h
  · cases hd : st.data with
    | none => exact ⟨rfl, by simp⟩
    | some t =>
      rw [hd] at h
      simp only [GoodData] at h
      refine ⟨h.1, ?_⟩
      intro r hr
      rw [TabFile.appendTabData] at hr
      simp only [List.mem_append, List.mem_singleton] at hr
      rcases hr with h1 | h1
      · exact h.2 r h1
      · subst h1
        simp [pySplitOn_ne_nil]

theorem foldl_good (lines : List String) (st : ParseState) (h : GoodData st.data) :
    GoodData ((lines.foldl processLine st).data) := by
  induction lines generalizing st with
  | nil => exact h
  | cons l ls ih =>
    rw [List.foldl_cons]
    exact ih _ (processLine_good st l h)

/-- Destructing a successful load: the stored table is the `order`-updated
parse table, which satisfies the construction invariant. -/
theorem load_destruct (lines : List String) (m : MacsXLS)
    (h : loadMacsXLS lines = .ok m) :
    ∃ t : TabFile, m.data = t.update_order ∧ t.column_names.head? = some "order" ∧
      ∀ r ∈ t.rows, r ≠ [] := by
  rw [loadMacsXLS] at h
  rcases hv : (lines.foldl processLine (initState none)).macs_version with _ | v
  · rw [hv] at h
    exact absurd h (by simp)
  · rw [hv] at h
    rcases hd : (lines.foldl processLine (initState none)).data with _ | t
    · rw [hd] at h
      exact absurd h (by simp)
    · rw [hd] at h
      have hg : GoodData ((lines.foldl processLine (initState none)).data) :=
        foldl_good lines _ trivial
      rw [hd] at hg
      simp only [GoodData] at hg
      refine ⟨t, ?_, hg.1, hg.2⟩
      have : m = { name := (lines.foldl processLine (initState none)).name,
                   macs_version := v,
                   command_line := (lines.foldl processLine (initState none)).command_line,
                   header := (lines.foldl processLine (initState none)).header,
                   data := t.update_order } := by
        exact (Except.ok.inj h).symm
      rw [this]

/-- The `order` column of a table, row by row. -/
def TabFile.orderValues (t : TabFile) : List (Option Value) :=
  t.rows.map (fun r => r[t.column_names.indexOf "order"]?)

/-- After `update_order`, the `order` column reads 1, 2, ..., N. -/
theorem orderValues_update_order (t : TabFile) (h0 : t.column_names.indexOf "order" = 0)
    (hr : ∀ r ∈ t.rows, r ≠ []) :
    t.update_order.orderValues
      = (List.range t.rows.length).map (fun (i : Nat) => some (Value.i ((i : Int) + 1))) := by
  apply List.ext_getElem?
  intro n
  simp only [TabFile.orderValues, TabFile.update_order, List.getElem?_map,
    List.getElem?_mapIdx, h0, Option.map_map]
  by_cases hn : n < t.rows.length
  · obtain ⟨r, hrn⟩ : ∃ r, t.rows[n]? = some r :=
      ⟨_, (List.getElem?_eq_some).mpr ⟨hn, rfl⟩⟩
    have hmem : r ∈ t.rows := by
      rw [List.getElem?_eq_some] at hrn
      obtain ⟨h1, h2⟩ := hrn
      exact h2 ▸ List.getElem_mem _
    have hlen : 0 < r.length := List.length_pos.mpr (hr r hmem)
    rw [hrn, List.getElem?_range hn]
    simp [List.getElem?_set_self hlen]
  · rw [List.getElem?_eq_none (le_of_not_lt hn), List.getElem?_eq_none (by simpa using le_of_not_lt hn)]
    rfl

/-- C6: for every valid input file with N data rows, immediately after
loading (before any explicit sort) the `order` column values are exactly
1..N in the order the rows appear in the file. -/
theorem c6_order_column_after_load (lines : List String) (m : MacsXLS)
    (h : loadMacsXLS lines = .ok m) :
    m.data.orderValues
      = (List.range m.data.rows.length).map (fun (i : Nat) => some (Value.i ((i : Int) + 1))) := by
  obtain ⟨t, hdata, h0, hr⟩ := load_destruct lines m h
  rw [hdata]
  have hlen : t.update_order.rows.length = t.rows.length := by
    simp [TabFile.update_order]
  rw [hlen]
  exact orderValues_update_order t (indexOf_order_eq_zero h0) hr

/-- C6 witness: the fixture loads with order column 1, 2, 3. -/
theorem c6_order_column_after_load_witness :
    loadMacsXLS exLines = .ok exM ∧
      exM.data.orderValues
        = (List.range exM.data.rows.length).map (fun (i : Nat) => some (Value.i ((i : Int) + 1))) :=
  ⟨by decide, c6_order_column_after_load exLines exM (by decide)⟩

/-- The version field accumulated over the fold: either no version line
was seen and the field is unchanged, or it holds the extraction from a
version line of the input. -/
theorem foldl_version (lines : List String) (st : ParseState) :
    ((lines.foldl processLine st).macs_version = st.macs_version ∧
      ∀ l ∈ lines, isVersionLine l = false) ∨
    ∃ l ∈ lines, isVersionLine l = true ∧
      (lines.foldl processLine st).macs_version = some (extractVersion l) := by
  induction lines generalizing st with
  | nil => exact Or.inl ⟨rfl, by simp⟩
  | cons l ls ih =>
    rw [List.foldl_cons]
    rcases ih (processLine st l) with ⟨heq, hall⟩ | ⟨l', hl', hv', heq'⟩
    · by_cases hv : isVersionLine l = true
      · refine Or.inr ⟨l, by simp, hv, ?_⟩
        rw [heq, processLine_version, if_pos hv]
      · refine Or.inl ⟨by rw [heq, processLine_version, if_neg (by simp_all)], ?_⟩
        intro x hx
        rcases List.mem_cons.mp hx with h1 | h1
        · subst h1
          simpa using hv
        · exact hall x h1
    · exact Or.inr ⟨l', List.mem_cons_of_mem _ hl', hv', heq'⟩

/-- C5: construction fails with the format error exactly when no
MACS-version header line is found; when one is present that error is not
raised, and a completed construction has `macs_version` holding the version
string extracted from a version line of the input. -/
theorem c5_format_error_iff (lines : List String) :
    (loadMacsXLS lines = .error .formatError ↔ ¬ ∃ l ∈ lines, isVersionLine l = true) ∧
    ∀ m : MacsXLS, loadMacsXLS lines = .ok m →
      ∃ l ∈ lines, isVersionLine l = true ∧ m.macs_version = extractVersion l := by
  refine ⟨⟨?_, ?_⟩, ?_⟩
  · intro herr hex
    obtain ⟨l, hl, hlv⟩ := hex
    rw [loadMacsXLS] at herr
    rcases hv : (lines.foldl processLine (initState none)).macs_version with _ | v
    · rcases foldl_version lines (initState none) with ⟨heq, hall⟩ | ⟨l', hl', hlv', heq'⟩
      · have hfalse := hall l hl
        rw [hlv] at hfalse
        simp at hfalse
      · rw [heq'] at hv
        simp at hv
    · rw [hv] at herr
      rcases hd : (lines.foldl processLine (initState none)).data with _ | t <;>
        rw [hd] at herr <;> simp at herr
  · intro hno
    rw [loadMacsXLS]
    rcases foldl_version lines (initState none) with ⟨heq, hall⟩ | ⟨l, hl, hlv, heq⟩
    · rw [heq]
      rfl
    · exact absurd ⟨l, hl, hlv⟩ hno
  · intro m hm
    rw [loadMacsXLS] at hm
    rcases hv : (lines.foldl processLine (initState none)).macs_version with _ | v
    · rw [hv] at hm
      simp at hm
    · rw [hv] at hm
      rcases hd : (lines.foldl processLine (initState none)).data with _ | t
      · rw [hd] at hm
        simp at hm
      · rw [hd] at hm
        have hmv : m.macs_version = v := by
          rw [← Except.ok.inj hm]
        rcases foldl_version lines (initState none) with ⟨heq, hall⟩ | ⟨l, hl, hlv, heq⟩
        · rw [heq] at hv
          simp [initState] at hv
        · refine ⟨l, hl, hlv, ?_⟩
          rw [hmv]
          exact (Option.some.inj (heq.symm.trans hv)).symm

/-- C5 witness: the fixture has a version line and loads with the
extracted version. -/
theorem c5_format_error_iff_witness :
    loadMacsXLS exLines = .ok exM ∧
      ∃ l ∈ exLines, isVersionLine l = true ∧ exM.macs_version = extractVersion l :=
  ⟨by decide, (c5_format_error_iff exLines).2 exM (by decide)⟩

/-- If every line is a header line, the data table is never created. -/
theorem foldl_data_none (lines : List String) (st : ParseState)
    (hst : st.data = none) (hall : ∀ l ∈ lines, isHeaderLine l = true) :
    (lines.foldl processLine st).data = none := by
  induction lines generalizing st with
  | nil => exact hst
  | cons l ls ih =>
    rw [List.foldl_cons]
    refine ih _ ?_ (fun x hx => hall x (List.mem_cons_of_mem _ hx))
    rw [processLine_data, if_pos (hall l (by simp))]
    exact hst

/-- If the data table exists after the fold, some input line was a
non-header line. -/
theorem foldl_data_some (lines : List String) (st : ParseState)
    (hst : st.data = none) (t : TabFile)
    (h : (lines.foldl processLine st).data = some t) :
    ∃ l ∈ lines, isHeaderLine l = false := by
  by_contra hno
  push_neg at hno
  rw [foldl_data_none lines st hst (fun l hl => by simpa using hno l hl)] at h
  simp at h

/-- C10: an input with a version line but no non-comment line leaves the
data table unset, so construction fails at the order-renumbering step;
a successful construction requires at least one non-comment line. -/
theorem c10_no_data_line (lines : List String) :
    ((∀ l ∈ lines, isHeaderLine l = true) → (∃ l ∈ lines, isVersionLine l = true) →
      loadMacsXLS lines = .error .noDataTable) ∧
    (∀ m : MacsXLS, loadMacsXLS lines = .ok m → ∃ l ∈ lines, isHeaderLine l = false) := by
  constructor
  · intro hall hex
    rw [loadMacsXLS]
    rcases hv : (lines.foldl processLine (initState none)).macs_version with _ | v
    · exfalso
      rcases foldl_version lines (initState none) with ⟨heq, hnone⟩ | ⟨l, hl, hlv, heq⟩
      · obtain ⟨l, hl, hlv⟩ := hex
        have hfalse := hnone l hl
        rw [hlv] at hfalse
        simp at hfalse
      · rw [heq] at hv
        simp at hv
    · rw [foldl_data_none lines (initState none) rfl hall]
  · intro m hm
    rw [loadMacsXLS] at hm
    rcases hv : (lines.foldl processLine (initState none)).macs_version with _ | v
    · rw [hv] at hm
      simp at hm
    · rw [hv] at hm
      rcases hd : (lines.foldl processLine (initState none)).data with _ | t
      · rw [hd] at hm
        simp at hm
      · exact foldl_data_some lines _ rfl t hd

/-- A fixture with a version line and only header lines. -/
def hdrOnlyLines : List String :=
  ["# This file is generated by MACS version 2.0.10", "# just a note"]

/-- C10 witness: the header-only fixture fails at the renumbering step. -/
theorem c10_no_data_line_witness :
    (∀ l ∈ hdrOnlyLines, isHeaderLine l = true) ∧
      loadMacsXLS hdrOnlyLines = .error .noDataTable :=
  ⟨by decide, (c10_no_data_line hdrOnlyLines).1 (by decide) (by decide)⟩

/-- The broad heuristic exactly as the spec words it: the command line
contains the broad flag, or, absent a command line, the summit column is
missing. -/
def broadPerSpec (m : MacsXLS) : Bool :=
  match m.command_line with
  | some cl => (pyWords cl).contains "--broad"
  | none => !(m.columns.contains "abs_summit")

/-- C3 counterexample: a loaded MACS 1.* instance whose command line
contains the broad flag, yet `with_broad_option` is false. -/
theorem c3_counterexample :
    loadMacsXLS v1Lines = .ok v1M ∧
      v1M.with_broad_option = false ∧ broadPerSpec v1M = true :=
  ⟨by decide, by decide, by decide⟩

/-- C3 (amended): `with_broad_option` is true iff the version does not
start with `1.` and the heuristic of the spec fires. -/
theorem c3_with_broad_option (m : MacsXLS) :
    m.with_broad_option = (!(pyStarts m.macs_version "1.") && broadPerSpec m) := by
  rw [MacsXLS.with_broad_option, broadPerSpec]
  split
  · simp_all
  · simp_all

/-- C9: for MACS 1.* versions, `with_broad_option` is false regardless of
the command line or the columns. -/
theorem c9_v1_never_broad (m : MacsXLS) (h : pyStarts m.macs_version "1." = true) :
    m.with_broad_option = false := by
  rw [MacsXLS.with_broad_option, if_pos h]

/-- C9 witness. -/
theorem c9_v1_never_broad_witness :
    pyStarts v1M.macs_version "1." = true ∧ v1M.with_broad_option = false :=
  ⟨by decide, c9_v1_never_broad v1M (by decide)⟩

/-- C4: on an unsupportable input (1.* version family or broad mode),
`xls_for_macs2` raises and no workbook is produced. -/
theorem c4_unsupported_raises (m : MacsXLS)
    (h : pyStarts m.macs_version "1." = true ∨ m.with_broad_option = true) :
    ∃ e : EmitError, xls_for_macs2 m = .error e := by
  rw [xls_for_macs2]
  by_cases h1 : pyStarts m.macs_version "1." = true
  · exact ⟨.unsupportedVersion, by rw [if_pos h1]⟩
  · rcases h with h | h
    · exact absurd h h1
    · exact ⟨.unsupportedMode, by rw [if_neg h1, if_pos h]⟩

/-- C4 witness. -/
theorem c4_unsupported_raises_witness :
    (pyStarts v1M.macs_version "1." = true ∨ v1M.with_broad_option = true) ∧
      ∃ e : EmitError, xls_for_macs2 v1M = .error e :=
  ⟨Or.inl (by decide), c4_unsupported_raises v1M (Or.inl (by decide))⟩

/-- Rows pairwise ordered in the given column under the applied
comparison. -/
def sortedOnColumn (t : TabFile) (c : String) (rev : Bool) : Prop :=
  t.rows.Pairwise (fun a b => rowLe (t.cellKey c) rev a b = true)

/-- With `order` in front, any other present column has nonzero index. -/
theorem indexOf_ne_zero_of_ne (c : String) (cols : List String)
    (h0 : cols.indexOf "order" = 0) (hc : c ∈ cols) (hco : c ≠ "order") :
    cols.indexOf c ≠ 0 := by
  cases cols with
  | nil => simp at hc
  | cons x rest =>
    have hx : x = "order" := by
      by_contra hx
      rw [List.indexOf_cons_ne rest hx] at h0
      simp at h0
    subst hx
    rw [List.indexOf_cons_ne rest (fun hh => hco hh.symm)]
    simp

/-- The keyed cell of a row is unchanged by writing the order cell, as
long as the keyed column is not the position of the order column. -/
theorem cellKey_set_zero (t : TabFile) (c : String)
    (hne : t.column_names.indexOf c ≠ 0) (r : List Value) (v : Value) :
    t.cellKey c (r.set 0 v) = t.cellKey c r := by
  rw [TabFile.cellKey, TabFile.cellKey, List.getElem?_set_ne (Ne.symm hne)]

/-- Pairwise relations survive `mapIdx` when the transform respects the
relation. -/
theorem pairwise_mapIdx_of_rel {α : Type} {R : α → α → Prop} (f : Nat → α → α)
    (hf : ∀ i j a b, R a b → R (f i a) (f j b)) {l : List α}
    (h : l.Pairwise R) : (l.mapIdx f).Pairwise R := by
  rw [List.pairwise_iff_getElem] at h ⊢
  intro i j hi hj hij
  rw [List.length_mapIdx] at hi hj
  rw [List.getElem_mapIdx, List.getElem_mapIdx]
  exact hf _ _ _ _ (h i j hi hj hij)

/-- The invariant a loaded table satisfies: `order` is the first column
and no row is empty. -/
theorem load_invariant (lines : List String) (m : MacsXLS)
    (h : loadMacsXLS lines = .ok m) :
    m.data.column_names.head? = some "order" ∧ ∀ r ∈ m.data.rows, r ≠ [] := by
  obtain ⟨t, hdata, h0, hr⟩ := load_destruct lines m h
  rw [hdata]
  refine ⟨h0, ?_⟩
  intro r hr'
  rw [TabFile.update_order] at hr'
  rw [List.mem_mapIdx] at hr'
  obtain ⟨i, hi, heq⟩ := hr'
  rw [← heq]
  intro hnil
  rw [indexOf_order_eq_zero h0, List.set_eq_nil_iff] at hnil
  exact hr _ (List.getElem_mem hi) hnil

/-- The row comparison only looks at the keys. -/
theorem rowLe_congr (k : List Value → Value) (rev : Bool) (a b a' b' : List Value)
    (ha : k a' = k a) (hb : k b' = k b) (h : rowLe k rev a b = true) :
    rowLe k rev a' b' = true := by
  cases rev
  · show Value.le (k a') (k b') = true
    rw [ha, hb]
    exact h
  · show Value.le (k b') (k a') = true
    rw [hb, ha]
    exact h

instance sortedOnColumnDec (t : TabFile) (c : String) (rev : Bool) :
    Decidable (sortedOnColumn t c rev) :=
  inferInstanceAs (Decidable (t.rows.Pairwise (fun a b => rowLe (t.cellKey c) rev a b = true)))

/-- C2 counterexample: sorting the loaded fixture on the `order` column
itself (descending) and renumbering leaves the `order` column ascending,
so the rows are not non-increasing in the sorted column. -/
theorem c2_counterexample :
    loadMacsXLS exLines = .ok exM ∧ "order" ∈ exM.data.column_names ∧
      ¬ sortedOnColumn ((exM.sort_on "order" true).data) "order" true :=
  ⟨by decide, by decide, by decide⟩

/-- After `sort_on` on a loaded table, the rows are ordered in the sorted
column under the comparison of the sort (for any column other than `order`,
whose renumbering happens after the sort). -/
theorem sort_on_sorted_of_loaded (lines : List String) (m : MacsXLS)
    (h : loadMacsXLS lines = .ok m) (c : String) (hco : c ≠ "order") (rev : Bool) :
    sortedOnColumn ((m.sort_on c rev).data) c rev := by
  obtain ⟨hhd, hr⟩ := load_invariant lines m h
  have h0 : m.data.column_names.indexOf "order" = 0 := indexOf_order_eq_zero hhd
  have hsorted := sortOn_rows_pairwise m.data c rev
  have h0s : (m.data.sortOn c rev).column_names.indexOf "order" = 0 := h0
  have hne : m.data.column_names.indexOf c ≠ 0 := indexOf_ne_zero_of_head hhd hco
  show ((m.data.sortOn c rev).update_order).rows.Pairwise
    (fun a b => rowLe (m.data.cellKey c) rev a b = true)
  rw [TabFile.update_order, h0s]
  refine pairwise_mapIdx_of_rel _ ?_ hsorted
  intro i j a b hab
  exact rowLe_congr _ rev a b _ _
    (cellKey_set_zero m.data c hne a (Value.i ((i : Int) + 1)))
    (cellKey_set_zero m.data c hne b (Value.i ((j : Int) + 1))) hab

/-- After `sort_on` on a loaded table, the `order` column is renumbered
1..N. -/
theorem sort_on_order_of_loaded (lines : List String) (m : MacsXLS)
    (h : loadMacsXLS lines = .ok m) (c : String) (rev : Bool) :
    (m.sort_on c rev).data.orderValues
      = (List.range m.data.rows.length).map (fun (i : Nat) => some (Value.i ((i : Int) + 1))) := by
  obtain ⟨hhd, hr⟩ := load_invariant lines m h
  have h0 : m.data.column_names.indexOf "order" = 0 := indexOf_order_eq_zero hhd
  have hperm := sortOn_rows_perm m.data c rev
  have h0s : (m.data.sortOn c rev).column_names.indexOf "order" = 0 := h0
  have hrs : ∀ r ∈ (m.data.sortOn c rev).rows, r ≠ [] :=
    fun r hrm => hr r (hperm.mem_iff.mp hrm)
  show ((m.data.sortOn c rev).update_order).orderValues = _
  rw [orderValues_update_order _ h0s hrs, hperm.length_eq]

/-- C2 (amended): after `sort_on(column, reverse)` on a loaded table, for
every present column other than the synthetic `order` column the rows are
non-increasing (descending) or non-decreasing (ascending) in that column,
and the `order` column is renumbered exactly 1..N. -/
theorem c2_sort_on (lines : List String) (m : MacsXLS)
    (h : loadMacsXLS lines = .ok m) (c : String)
    (hc : c ∈ m.data.column_names) (hco : c ≠ "order") (rev : Bool) :
    sortedOnColumn ((m.sort_on c rev).data) c rev ∧
      (m.sort_on c rev).data.orderValues
        = (List.range m.data.rows.length).map (fun (i : Nat) => some (Value.i ((i : Int) + 1))) :=
  ⟨sort_on_sorted_of_loaded lines m h c hco rev, sort_on_order_of_loaded lines m h c rev⟩

/-- C2 witness: sorting the fixture on fold enrichment. -/
theorem c2_sort_on_witness :
    (loadMacsXLS exLines = .ok exM ∧ "fold_enrichment" ∈ exM.data.column_names ∧
      "fold_enrichment" ≠ "order") ∧
    (sortedOnColumn ((exM.sort_on "fold_enrichment" true).data) "fold_enrichment" true ∧
      (exM.sort_on "fold_enrichment" true).data.orderValues
        = (List.range exM.data.rows.length).map (fun (i : Nat) => some (Value.i ((i : Int) + 1)))) :=
  ⟨⟨by decide, by decide, by decide⟩,
    c2_sort_on exLines exM (by decide) "fold_enrichment" (by decide) (by decide) true⟩

/-- Destructing a successful emission: the input was supported and the
workbook is the three fixed sheets over the re-sorted table. -/
theorem xls_destruct (m : MacsXLS) (wb : XLSWorkBook) (h : xls_for_macs2 m = .ok wb) :
    pyStarts m.macs_version "1." = false ∧ m.with_broad_option = false ∧
      wb = { sheets := [("data", dataSheetFinal (m.sort_on "fold_enrichment" true)),
                        ("notes", notesSheet (m.sort_on "fold_enrichment" true)),
                        ("legends", legendsSheet)] } := by
  rw [xls_for_macs2] at h
  by_cases h1 : pyStarts m.macs_version "1." = true
  · rw [if_pos h1] at h
    simp at h
  · rw [if_neg h1] at h
    by_cases h2 : m.with_broad_option = true
    · rw [if_pos h2] at h
      simp at h
    · rw [if_neg h2] at h
      refine ⟨by simpa using h1, by simpa using h2, ?_⟩
      exact (Except.ok.inj h).symm

/-- C8: the emitted workbook holds exactly the sheets data, notes,
legends, in that order. -/
theorem c8_three_sheets (m : MacsXLS) (wb : XLSWorkBook)
    (h : xls_for_macs2 m = .ok wb) :
    wb.sheets.map Prod.fst = ["data", "notes", "legends"] := by
  rw [(xls_destruct m wb h).2.2]
  rfl

/-- C8 witness. -/
theorem c8_three_sheets_witness :
    xls_for_macs2 exM = .ok exWB ∧ exWB.sheets.map Prod.fst = ["data", "notes", "legends"] :=
  ⟨rfl, c8_three_sheets exM exWB rfl⟩

/-- The per-row effect of the six insert-and-fill steps on a data row of
the sheet (a row with number `n ≥ 2`). -/
def dataRowMap (n : Nat) (r : Row) : Row :=
  wrRowMap 9 (Cell.f (fillTemplate "=L?" n))
    (insRowMap 9 Cell.emptyCell
      (wrRowMap 8 (Cell.f (fillTemplate "=L?-1" n))
        (insRowMap 8 Cell.emptyCell
          (wrRowMap 7 (Cell.f (fillTemplate "=B?" n))
            (insRowMap 7 Cell.emptyCell
              (wrRowMap 6 (Cell.f (fillTemplate "=L?+100" n))
                (insRowMap 6 Cell.emptyCell
                  (wrRowMap 5 (Cell.f (fillTemplate "=L?-100" n))
                    (insRowMap 5 Cell.emptyCell
                      (wrRowMap 4 (Cell.f (fillTemplate "=B?" n))
                        (insRowMap 4 Cell.emptyCell r)))))))))))

/-- The per-row effect of the six insertions on the header row (row 1:
each insertion writes its column title there, the fills skip it). -/
def hdrRowMap (r : Row) : Row :=
  insRowMap 9 (Cell.v (.s "summit"))
    (insRowMap 8 (Cell.v (.s "summit-1"))
      (insRowMap 7 (Cell.v (.s "chr"))
        (insRowMap 6 (Cell.v (.s "abs_summit+100"))
          (insRowMap 5 (Cell.v (.s "abs_summit-100"))
            (insRowMap 4 (Cell.v (.s "chr")) r)))))

/-- Row 1 of the final data sheet is the transformed header row. -/
theorem dataSheetFinal_rows_zero (m : MacsXLS) :
    (dataSheetFinal m).rows[0]? = ((dataSheetBase m).rows[0]?).map hdrRowMap := by
  rw [dataSheetFinal]
  simp only [Sheet.insert_column, Sheet.write_column_fill, List.getElem?_mapIdx,
    Option.map_map]
  rfl

/-- Rows 2.. of the final data sheet are the transformed data rows. -/
theorem dataSheetFinal_rows_pos (m : MacsXLS) (i : Nat) (hi : 1 ≤ i) :
    (dataSheetFinal m).rows[i]? = ((dataSheetBase m).rows[i]?).map (dataRowMap (i + 1)) := by
  have h2 : 2 ≤ i + 1 := by omega
  have h0 : ¬ (i = 0) := by omega
  rw [dataSheetFinal]
  simp only [Sheet.insert_column, Sheet.write_column_fill, List.getElem?_mapIdx,
    Option.map_map, h2, h0, if_true, if_false, ite_true, ite_false]
  rfl

theorem fillTemplate_eq_B (n : Nat) : fillTemplate "=B?" n = "=B" ++ toString n := by
  show String.mk ('=' :: 'B' :: ((toString n).data ++ [])) = String.mk ('=' :: 'B' :: (toString n).data)
  simp

theorem fillTemplate_eq_L (n : Nat) : fillTemplate "=L?" n = "=L" ++ toString n := by
  show String.mk ('=' :: 'L' :: ((toString n).data ++ [])) = String.mk ('=' :: 'L' :: (toString n).data)
  simp

theorem fillTemplate_eq_Lm100 (n : Nat) :
    fillTemplate "=L?-100" n = "=L" ++ toString n ++ "-100" := by
  show String.mk ('=' :: 'L' :: ((toString n).data ++ ['-', '1', '0', '0']))
      = String.mk (('=' :: 'L' :: (toString n).data) ++ ['-', '1', '0', '0'])
  simp

theorem fillTemplate_eq_Lp100 (n : Nat) :
    fillTemplate "=L?+100" n = "=L" ++ toString n ++ "+100" := by
  show String.mk ('=' :: 'L' :: ((toString n).data ++ ['+', '1', '0', '0']))
      = String.mk (('=' :: 'L' :: (toString n).data) ++ ['+', '1', '0', '0'])
  simp

theorem fillTemplate_eq_Lm1 (n : Nat) :
    fillTemplate "=L?-1" n = "=L" ++ toString n ++ "-1" := by
  show String.mk ('=' :: 'L' :: ((toString n).data ++ ['-', '1']))
      = String.mk (('=' :: 'L' :: (toString n).data) ++ ['-', '1'])
  simp

theorem dataRowMap_cell_4 (n : Nat) (r : Row) :
    dataRowMap n r 4 = Cell.f (fillTemplate "=B?" n) := by
  simp [dataRowMap, wrRowMap, insRowMap]

theorem dataRowMap_cell_5 (n : Nat) (r : Row) :
    dataRowMap n r 5 = Cell.f (fillTemplate "=L?-100" n) := by
  simp [dataRowMap, wrRowMap, insRowMap]

theorem dataRowMap_cell_6 (n : Nat) (r : Row) :
    dataRowMap n r 6 = Cell.f (fillTemplate "=L?+100" n) := by
  simp [dataRowMap, wrRowMap, insRowMap]

theorem dataRowMap_cell_7 (n : Nat) (r : Row) :
    dataRowMap n r 7 = Cell.f (fillTemplate "=B?" n) := by
  simp [dataRowMap, wrRowMap, insRowMap]

theorem dataRowMap_cell_8 (n : Nat) (r : Row) :
    dataRowMap n r 8 = Cell.f (fillTemplate "=L?-1" n) := by
  simp [dataRowMap, wrRowMap, insRowMap]

theorem dataRowMap_cell_9 (n : Nat) (r : Row) :
    dataRowMap n r 9 = Cell.f (fillTemplate "=L?" n) := by
  simp [dataRowMap, wrRowMap, insRowMap]

theorem wrRowMap_ne (j : Nat) (c : Cell) (r : Row) (k : Nat) (h : k ≠ j) :
    wrRowMap j c r k = r k := by
  rw [wrRowMap]
  exact if_neg h

theorem insRowMap_lt (j : Nat) (c : Cell) (r : Row) (k : Nat) (h : k < j) :
    insRowMap j c r k = r k := by
  rw [insRowMap]
  exact if_pos h

theorem insRowMap_gt (j : Nat) (c : Cell) (r : Row) (k : Nat) (h : j < k) :
    insRowMap j c r k = r (k - 1) := by
  rw [insRowMap, if_neg (by omega), if_neg (by omega)]

theorem dataRowMap_cell_low (n : Nat) (r : Row) (j : Nat) (hj : j < 4) :
    dataRowMap n r j = r j := by
  rw [dataRowMap]
  rw [wrRowMap_ne _ _ _ _ (by omega), insRowMap_lt _ _ _ _ (by omega)]
  rw [wrRowMap_ne _ _ _ _ (by omega), insRowMap_lt _ _ _ _ (by omega)]
  rw [wrRowMap_ne _ _ _ _ (by omega), insRowMap_lt _ _ _ _ (by omega)]
  rw [wrRowMap_ne _ _ _ _ (by omega), insRowMap_lt _ _ _ _ (by omega)]
  rw [wrRowMap_ne _ _ _ _ (by omega), insRowMap_lt _ _ _ _ (by omega)]
  rw [wrRowMap_ne _ _ _ _ (by omega), insRowMap_lt _ _ _ _ (by omega)]

theorem dataRowMap_cell_high (n : Nat) (r : Row) (j : Nat) (hj : 4 ≤ j) :
    dataRowMap n r (j + 6) = r j := by
  rw [dataRowMap]
  rw [wrRowMap_ne _ _ _ _ (by omega), insRowMap_gt _ _ _ _ (by omega),
    show j + 6 - 1 = j + 5 from by omega]
  rw [wrRowMap_ne _ _ _ _ (by omega), insRowMap_gt _ _ _ _ (by omega),
    show j + 5 - 1 = j + 4 from by omega]
  rw [wrRowMap_ne _ _ _ _ (by omega), insRowMap_gt _ _ _ _ (by omega),
    show j + 4 - 1 = j + 3 from by omega]
  rw [wrRowMap_ne _ _ _ _ (by omega), insRowMap_gt _ _ _ _ (by omega),
    show j + 3 - 1 = j + 2 from by omega]
  rw [wrRowMap_ne _ _ _ _ (by omega), insRowMap_gt _ _ _ _ (by omega),
    show j + 2 - 1 = j + 1 from by omega]
  rw [wrRowMap_ne _ _ _ _ (by omega), insRowMap_gt _ _ _ _ (by omega),
    show j + 1 - 1 = j from by omega]

theorem hdrRowMap_cell_high (r : Row) (j : Nat) (hj : 4 ≤ j) :
    hdrRowMap r (j + 6) = r j := by
  rw [hdrRowMap]
  rw [insRowMap_gt _ _ _ _ (by omega), show j + 6 - 1 = j + 5 from by omega]
  rw [insRowMap_gt _ _ _ _ (by omega), show j + 5 - 1 = j + 4 from by omega]
  rw [insRowMap_gt _ _ _ _ (by omega), show j + 4 - 1 = j + 3 from by omega]
  rw [insRowMap_gt _ _ _ _ (by omega), show j + 3 - 1 = j + 2 from by omega]
  rw [insRowMap_gt _ _ _ _ (by omega), show j + 2 - 1 = j + 1 from by omega]
  rw [insRowMap_gt _ _ _ _ (by omega), show j + 1 - 1 = j from by omega]

theorem dataSheetBase_rows_zero (m : MacsXLS) :
    (dataSheetBase m).rows[0]? =
      some (mkRow (m.columns_as_xls_header.map (fun c => Cell.v (.s c)))) := by
  rw [dataSheetBase]
  show (mkRow (m.columns_as_xls_header.map (fun c => Cell.v (.s c)))
      :: List.map mkValueRow m.data.rows)[0]? = _
  rw [List.getElem?_cons_zero]

theorem dataSheetBase_rows_succ (m : MacsXLS) (i : Nat) :
    (dataSheetBase m).rows[i + 1]? = (m.data.rows[i]?).map mkValueRow := by
  rw [dataSheetBase]
  show (mkRow (m.columns_as_xls_header.map (fun c => Cell.v (.s c)))
      :: List.map mkValueRow m.data.rows)[i + 1]? = _
  rw [List.getElem?_cons_succ, List.getElem?_map]

/-- Sorting and renumbering leave the column names unchanged. -/
theorem sort_on_columns (m : MacsXLS) (c : String) (rev : Bool) :
    (m.sort_on c rev).data.column_names = m.data.column_names := rfl

/-- Sorting and renumbering leave the number of rows unchanged. -/
theorem sort_on_rows_length (m : MacsXLS) (c : String) (rev : Bool) :
    (m.sort_on c rev).data.rows.length = m.data.rows.length := by
  show ((m.data.sortOn c rev).update_order).rows.length = _
  rw [TabFile.update_order]
  show ((m.data.sortOn c rev).rows.mapIdx _).length = _
  rw [List.length_mapIdx]
  exact (sortOn_rows_perm m.data c rev).length_eq

/-- The sixth header entry survives the hash-prefixing of the first. -/
theorem columns_as_xls_header_getElem_5 (m' : MacsXLS)
    (habs : m'.data.column_names[5]? = some "abs_summit") :
    m'.columns_as_xls_header[5]? = some "abs_summit" := by
  rw [MacsXLS.columns_as_xls_header, show (5 : Nat) = 4 + 1 from rfl,
    List.getElem?_cons_succ, MacsXLS.columns]
  cases hcols : m'.data.column_names with
  | nil =>
    rw [hcols] at habs
    simp at habs
  | cons x cs =>
    rw [hcols, show (5 : Nat) = 4 + 1 from rfl, List.getElem?_cons_succ] at habs
    rw [List.tail_cons]
    exact habs

/-- Cell L1 of the final data sheet is the `abs_summit` title when the
source table has `abs_summit` as its sixth column. -/
theorem dataSheetFinal_header_abs (mx : MacsXLS)
    (habs : mx.data.column_names[5]? = some "abs_summit") :
    (dataSheetFinal mx).cell 11 1 = Cell.v (.s "abs_summit") := by
  rw [Sheet.cell, show (1 : Nat) - 1 = 0 from rfl, dataSheetFinal_rows_zero mx,
    dataSheetBase_rows_zero mx, Option.map_some', Option.getD_some,
    show (11 : Nat) = 5 + 6 from rfl, hdrRowMap_cell_high _ 5 (by omega)]
  simp only [mkRow, List.getElem?_map, columns_as_xls_header_getElem_5 mx habs,
    Option.map_some', Option.getD_some]

/-- The cells of data row `i` of the final sheet are the transformed
cells of table row `i`. -/
theorem dataSheetFinal_cell_data (mx : MacsXLS) (i : Nat) (hi : i < mx.data.rows.length) :
    ∃ r : List Value, mx.data.rows[i]? = some r ∧
      ∀ k, (dataSheetFinal mx).cell k (i + 2) = dataRowMap (i + 2) (mkValueRow r) k := by
  obtain ⟨r, hr⟩ : ∃ r, mx.data.rows[i]? = some r :=
    ⟨_, List.getElem?_eq_some.mpr ⟨hi, rfl⟩⟩
  refine ⟨r, hr, ?_⟩
  intro k
  rw [Sheet.cell, show i + 2 - 1 = i + 1 from by omega,
    dataSheetFinal_rows_pos mx (i + 1) (by omega), dataSheetBase_rows_succ, hr,
    Option.map_some', Option.map_some', Option.getD_some]

/-- C1: for a supported (MACS2, non-broad) input whose sixth column is
`abs_summit`, every derived formula cell of the emitted data sheet
references the correct same-row cells after the six insertions: E and H
hold `=B<row>`, F holds `=L<row>-100`, G holds `=L<row>+100`, I holds
`=L<row>-1`, J holds `=L<row>`, and column L (index 11) is where
`abs_summit` ends up. -/
theorem c1_formula_cells (lines : List String) (m : MacsXLS) (wb : XLSWorkBook)
    (h : loadMacsXLS lines = .ok m)
    (habs : m.data.column_names[5]? = some "abs_summit")
    (hx : xls_for_macs2 m = .ok wb) :
    ∃ sheet : Sheet, wb.sheets.head? = some ("data", sheet) ∧
      sheet.cell 11 1 = Cell.v (.s "abs_summit") ∧
      ∀ i < m.data.rows.length,
        sheet.cell 4 (i + 2) = Cell.f ("=B" ++ toString (i + 2)) ∧
        sheet.cell 5 (i + 2) = Cell.f ("=L" ++ toString (i + 2) ++ "-100") ∧
        sheet.cell 6 (i + 2) = Cell.f ("=L" ++ toString (i + 2) ++ "+100") ∧
        sheet.cell 7 (i + 2) = Cell.f ("=B" ++ toString (i + 2)) ∧
        sheet.cell 8 (i + 2) = Cell.f ("=L" ++ toString (i + 2) ++ "-1") ∧
        sheet.cell 9 (i + 2) = Cell.f ("=L" ++ toString (i + 2)) := by
  obtain ⟨-, -, hwb⟩ := xls_destruct m wb hx
  subst hwb
  refine ⟨dataSheetFinal (m.sort_on "fold_enrichment" true), rfl, ?_, ?_⟩
  · exact dataSheetFinal_header_abs _ habs
  · intro i hi
    have hi' : i < (m.sort_on "fold_enrichment" true).data.rows.length := by
      rw [sort_on_rows_length]
      exact hi
    obtain ⟨r, hr, hcell⟩ := dataSheetFinal_cell_data _ i hi'
    refine ⟨?_, ?_, ?_, ?_, ?_, ?_⟩
    · rw [hcell 4, dataRowMap_cell_4, fillTemplate_eq_B]
    · rw [hcell 5, dataRowMap_cell_5, fillTemplate_eq_Lm100]
    · rw [hcell 6, dataRowMap_cell_6, fillTemplate_eq_Lp100]
    · rw [hcell 7, dataRowMap_cell_7, fillTemplate_eq_B]
    · rw [hcell 8, dataRowMap_cell_8, fillTemplate_eq_Lm1]
    · rw [hcell 9, dataRowMap_cell_9, fillTemplate_eq_L]

/-- C1 witness: the data sheet of the fixture carries the six formula columns
with same-row references. -/
theorem c1_formula_cells_witness :
    (loadMacsXLS exLines = .ok exM ∧ exM.data.column_names[5]? = some "abs_summit" ∧
      xls_for_macs2 exM = .ok exWB) ∧
    (∃ sheet : Sheet, exWB.sheets.head? = some ("data", sheet) ∧
      sheet.cell 11 1 = Cell.v (.s "abs_summit") ∧
      ∀ i < exM.data.rows.length,
        sheet.cell 4 (i + 2) = Cell.f ("=B" ++ toString (i + 2)) ∧
        sheet.cell 5 (i + 2) = Cell.f ("=L" ++ toString (i + 2) ++ "-100") ∧
        sheet.cell 6 (i + 2) = Cell.f ("=L" ++ toString (i + 2) ++ "+100") ∧
        sheet.cell 7 (i + 2) = Cell.f ("=B" ++ toString (i + 2)) ∧
        sheet.cell 8 (i + 2) = Cell.f ("=L" ++ toString (i + 2) ++ "-1") ∧
        sheet.cell 9 (i + 2) = Cell.f ("=L" ++ toString (i + 2))) :=
  ⟨⟨by decide, by decide, rfl⟩, c1_formula_cells exLines exM exWB (by decide) (by decide) rfl⟩

/-- The final position of a pre-insertion column index after the six
column insertions at E..J. -/
def shiftedCol (j : Nat) : Nat := if j < 4 then j else j + 6

/-- C7: emission sorts the table descending by fold enrichment before
writing, and the fold-enrichment column of the data sheet lists exactly the
sorted (hence non-increasing) values. -/
theorem c7_sorted_emission (lines : List String) (m : MacsXLS) (wb : XLSWorkBook)
    (h : loadMacsXLS lines = .ok m) (hx : xls_for_macs2 m = .ok wb) :
    ∃ sheet : Sheet, wb.sheets.head? = some ("data", sheet) ∧
      sortedOnColumn ((m.sort_on "fold_enrichment" true).data) "fold_enrichment" true ∧
      (List.range m.data.rows.length).map
          (fun i => sheet.cell (shiftedCol (m.data.column_names.indexOf "fold_enrichment")) (i + 2))
        = ((m.sort_on "fold_enrichment" true).data.rows).map
            (fun r => cellOfValue r[m.data.column_names.indexOf "fold_enrichment"]?) := by
  obtain ⟨-, -, hwb⟩ := xls_destruct m wb hx
  subst hwb
  refine ⟨dataSheetFinal (m.sort_on "fold_enrichment" true), rfl,
    sort_on_sorted_of_loaded lines m h _ (by decide) true, ?_⟩
  apply List.ext_getElem?
  intro n
  rw [List.getElem?_map, List.getElem?_map]
  by_cases hn : n < m.data.rows.length
  · rw [List.getElem?_range hn]
    have hn' : n < (m.sort_on "fold_enrichment" true).data.rows.length := by
      rw [sort_on_rows_length]
      exact hn
    obtain ⟨r, hr, hcell⟩ := dataSheetFinal_cell_data _ n hn'
    rw [hr, Option.map_some', Option.map_some',
      hcell (shiftedCol (m.data.column_names.indexOf "fold_enrichment")), shiftedCol]
    by_cases hj4 : m.data.column_names.indexOf "fold_enrichment" < 4
    · rw [if_pos hj4, dataRowMap_cell_low _ _ _ hj4]
      rfl
    · rw [if_neg hj4, dataRowMap_cell_high _ _ _ (by omega)]
      rfl
  · rw [List.getElem?_eq_none (by simpa using le_of_not_lt hn),
      List.getElem?_eq_none (by rw [sort_on_rows_length]; exact le_of_not_lt hn)]
    rfl

/-- C7 witness: the emitted fold-enrichment column of the fixture is the
sorted one. -/
theorem c7_sorted_emission_witness :
    (loadMacsXLS exLines = .ok exM ∧ xls_for_macs2 exM = .ok exWB) ∧
    (∃ sheet : Sheet, exWB.sheets.head? = some ("data", sheet) ∧
      sortedOnColumn ((exM.sort_on "fold_enrichment" true).data) "fold_enrichment" true ∧
      (List.range exM.data.rows.length).map
          (fun i => sheet.cell (shiftedCol (exM.data.column_names.indexOf "fold_enrichment")) (i + 2))
        = ((exM.sort_on "fold_enrichment" true).data.rows).map
            (fun r => cellOfValue r[exM.data.column_names.indexOf "fold_enrichment"]?)) :=
  ⟨⟨by decide, rfl⟩, c7_sorted_emission exLines exM exWB (by decide) rfl⟩

end Macs
